import Mathlib

/-!
Verification of the FilmElo Rating & Matchmaking Engine.

This file gives a shallow embedding of the engine's TypeScript source:
the Elo calculator (`eloCalculator.ts`, newest revision with dynamic
K-factors), the voting arena's pair generation / undo stack
(`VotingArena.tsx`), the Monte-Carlo simulation round
(`simulationService.ts`) and the analytics in `MovieDetailModal.tsx`.

Numbers held in JavaScript variables are modelled as follows: ratings and
rating deltas are `ℚ` (every value the program actually stores is an
integer produced by `Math.round`, or the initial rating; `ℚ` covers the
full input domain of the functions), the expected-score computation uses
`ℝ` because of the non-integral power `10 ^ ((b - a)/400)`, and
`Math.round` is Mathlib's `round` (both round half points up).  Ambient
calls to `Math.random()` (always used as a value in `[0,1)`) are made
explicit as a draw stream `ℕ → ℚ` consumed at successive indices, and
`Date.now()` becomes an explicit timestamp argument.
-/

namespace FilmElo

/-- Outcome of a match from one participant's perspective ('WIN' | 'LOSS'). -/
inductive MatchResult where
  | WIN : MatchResult
  | LOSS : MatchResult
deriving DecidableEq, Repr

/-- One entry of a participant's ledger (interface `MatchRecord` in `types.ts`).
`opponentElo` is an optional field: records written by old versions of the
code lack it, which the analytics code guards for. -/
structure MatchRecord where
  timestamp : ℕ
  opponentId : ℕ
  opponentName : String
  result : MatchResult
  eloChange : ℚ
  newElo : ℚ
  opponentElo : Option ℚ
deriving DecidableEq, Repr

/-- A participant (interface `Movie` in `types.ts`).  `posterPath` is the
cosmetic field filled in by the background image fetcher. -/
structure Movie where
  id : ℕ
  name : String
  year : String
  rating : Option ℚ
  elo : ℚ
  -- the source field is called `matches`, a keyword in Lean
  matchesPlayed : ℕ
  wins : ℕ
  losses : ℕ
  history : List MatchRecord
  posterPath : Option String
deriving DecidableEq, Repr

instance : Inhabited Movie :=
  ⟨⟨0, "", "", none, 0, 0, 0, 0, [], none⟩⟩

/-- A freshly imported participant: the given rating, zero counts, empty
ledger (as built by the upload component). -/
def freshMovie (id : ℕ) (elo : ℚ) : Movie :=
  ⟨id, "", "", none, elo, 0, 0, 0, [], none⟩

/-- `INITIAL_ELO` from `constants.ts`. -/
def INITIAL_ELO : ℚ := 1200

/-- `getKFactor` from `eloCalculator.ts`: 80 below 5 matches (placement),
40 below 15 (calibration), 20 otherwise (established). -/
def getKFactor (m : ℕ) : ℚ :=
  if m < 5 then 80 else if m < 15 then 40 else 20

/-- `getExpectedScore` from `eloCalculator.ts`:
`1 / (1 + Math.pow(10, (ratingB - ratingA) / 400))`. -/
noncomputable def getExpectedScore (ratingA ratingB : ℚ) : ℝ :=
  1 / (1 + (10 : ℝ) ^ ((((ratingB : ℝ)) - ((ratingA : ℝ))) / 400))

/-- `calculateNewRatings` from `eloCalculator.ts`: independent K-factors for
the two sides, `Math.round` applied to both results. -/
noncomputable def calculateNewRatings (winnerElo : ℚ) (winnerMatches : ℕ)
    (loserElo : ℚ) (loserMatches : ℕ) : ℤ × ℤ :=
  (round ((winnerElo : ℝ) +
      ((getKFactor winnerMatches : ℚ) : ℝ) * (1 - getExpectedScore winnerElo loserElo)),
   round ((loserElo : ℝ) +
      ((getKFactor loserMatches : ℚ) : ℝ) * (0 - getExpectedScore loserElo winnerElo)))

/-- `updateMovieStats` from `eloCalculator.ts`: computes the new ratings,
appends a reciprocal `MatchRecord` to each side's ledger, and bumps
matches / wins / losses.  `Date.now()` is the explicit `timestamp`. -/
noncomputable def updateMovieStats (winner loser : Movie) (timestamp : ℕ) :
    Movie × Movie :=
  let p := calculateNewRatings winner.elo winner.matchesPlayed loser.elo loser.matchesPlayed
  let newWinnerElo : ℚ := (p.1 : ℚ)
  let newLoserElo : ℚ := (p.2 : ℚ)
  let winnerDiff := newWinnerElo - winner.elo
  let loserDiff := newLoserElo - loser.elo
  let winnerRecord : MatchRecord :=
    { timestamp := timestamp
      opponentId := loser.id
      opponentName := loser.name
      result := .WIN
      eloChange := winnerDiff
      newElo := newWinnerElo
      opponentElo := some loser.elo }
  let loserRecord : MatchRecord :=
    { timestamp := timestamp
      opponentId := winner.id
      opponentName := winner.name
      result := .LOSS
      eloChange := loserDiff
      newElo := newLoserElo
      opponentElo := some winner.elo }
  ({ winner with
      elo := newWinnerElo
      matchesPlayed := winner.matchesPlayed + 1
      wins := winner.wins + 1
      history := winner.history ++ [winnerRecord] },
   { loser with
      elo := newLoserElo
      matchesPlayed := loser.matchesPlayed + 1
      losses := loser.losses + 1
      history := loser.history ++ [loserRecord] })

/-! ### The voting arena's undo stack (`VotingArena.tsx`)

`handleVote` and `handleUndo` act on the component state that matters to
the engine: the `movies` pool and the `history` stack of pool snapshots.
The animation delay merely postpones the committed update; the committed
effect of a vote is modelled as one state transition. -/

/-- The engine-relevant state of `VotingArena`: the pool and the stack of
undo snapshots. -/
structure ArenaState where
  movies : List Movie
  history : List (List Movie)
deriving Repr

/-- `handleVote` from `VotingArena.tsx` (committed effect): push
`[...prev.slice(-10), [...movies]]` onto the snapshot stack, then replace
the winner and loser entries by their `updateMovieStats` updates. -/
noncomputable def handleVote (s : ArenaState) (winnerIndex loserIndex : ℕ)
    (timestamp : ℕ) : ArenaState :=
  let hist := (s.history.drop (s.history.length - 10)) ++ [s.movies]
  let winner := s.movies.getD winnerIndex default
  let loser := s.movies.getD loserIndex default
  let p := updateMovieStats winner loser timestamp
  { movies := (s.movies.set winnerIndex p.1).set loserIndex p.2
    history := hist }

/-- `handleUndo` from `VotingArena.tsx`: with an empty stack it is a no-op;
otherwise the pool is replaced wholesale by the most recent snapshot, which
is popped. -/
def handleUndo (s : ArenaState) : ArenaState :=
  match s.history.getLast? with
  | none => s
  | some prev => { movies := prev, history := s.history.dropLast }

/-! ### The matchmaker (`generatePair` in `VotingArena.tsx`)

The ambient `Math.random()` calls are a draw stream `rand : ℕ → ℚ` read at
successive positions: 0 for `idx1`, 1 for the first `idx2`, 2 for the
smart-pairing coin, `3 .. 3+attempts-1` for the candidate samples, one more
for the top-3 pick when candidates exist, and then up to 100 positions for
the safety retries. -/

/-- `Math.floor(r * n)` for a draw `r` (clamped at zero below, which a real
unit-interval draw never triggers). -/
def floorIdx (r : ℚ) (n : ℕ) : ℕ := (⌊r * (n : ℚ)⌋).toNat

/-- The bounded retry loop of `generatePair`:
`while (idx1 === idx2 && safety < 100) { idx2 = floor(random * n); safety++; }`.
Returns the final `idx2` together with the next unread draw position. -/
def retryDistinct (rand : ℕ → ℚ) (n idx1 : ℕ) : ℕ → ℕ → ℕ → ℕ × ℕ
  | idx2, c, 0 => (idx2, c)
  | idx2, c, fuel + 1 =>
    if idx1 = idx2 then retryDistinct rand n idx1 (floorIdx (rand c) n) (c + 1) fuel
    else (idx2, c)

/-- The candidate sampling of the smart-pairing branch: `attempts` random
indices, those equal to `idx1` skipped, each kept with its absolute rating
distance to the target rating. -/
def smartCandidates (movies : List Movie) (rand : ℕ → ℚ) (idx1 : ℕ)
    (targetElo : ℚ) (attempts : ℕ) : List (ℕ × ℚ) :=
  (List.range attempts).filterMap (fun i =>
    let r := floorIdx (rand (3 + i)) movies.length
    if r = idx1 then none
    else some (r, |(movies.getD r default).elo - targetElo|))

/-- The smart-pairing step (`useSmartPairing` branch): with `random > 0.6`,
sample candidates, stable-sort them by rating distance (`candidates.sort`),
and pick uniformly among the 3 closest; otherwise keep the uniform `idx2`.
Returns the chosen `idx2` and the next unread draw position. -/
def smartStep (movies : List Movie) (rand : ℕ → ℚ) (idx1 idx2 : ℕ) : ℕ × ℕ :=
  if (6 : ℚ) / 10 < rand 2 then
    let targetElo := (movies.getD idx1 default).elo
    let attempts := min (movies.length - 1) 20
    let candidates := smartCandidates movies rand idx1 targetElo attempts
    if 0 < candidates.length then
      let pool := (candidates.insertionSort (fun a b => a.2 ≤ b.2)).take 3
      ((pool.getD (floorIdx (rand (3 + attempts)) pool.length) default).1,
       3 + attempts + 1)
    else (idx2, 3 + attempts)
  else (idx2, 3)

/-- `generatePair` with the next unread draw position exposed.  Mirrors the
source: pools with fewer than 2 movies get the sentinel `[0, 0]`; otherwise
`idx1` and `idx2` are drawn uniformly, `idx2` possibly redrawn by rating
proximity, and finally `idx2` is redrawn up to 100 times until it differs
from `idx1`. -/
def generatePairAux (movies : List Movie) (rand : ℕ → ℚ) : (ℕ × ℕ) × ℕ :=
  if movies.length < 2 then ((0, 0), 0)
  else
    let idx1 := floorIdx (rand 0) movies.length
    let step := smartStep movies rand idx1 (floorIdx (rand 1) movies.length)
    let final := retryDistinct rand movies.length idx1 step.1 step.2 100
    ((idx1, final.1), final.2)

/-- `generatePair` from `VotingArena.tsx`. -/
def generatePair (movies : List Movie) (rand : ℕ → ℚ) : ℕ × ℕ :=
  (generatePairAux movies rand).1

/-! ### The simulation engine (`runSimulationRound` in `simulationService.ts`)

The source sorts with `movies.sort((a, b) => (b.elo - a.elo) + (Math.random() * 10 - 5))`,
i.e. the comparator itself draws fresh noise at every comparison, and the
resulting order of such an inconsistent comparator is engine-defined.  The
model follows the spec's description of the same step (a small random
perturbation applied to the sort key): one draw per participant perturbs
its key, then a stable descending sort.  The id-keyed insertion-ordered
`Map` of the source returns the sorted order with updated entries, which
`simPairs` reproduces positionally. -/

/-- The per-participant invariant of §3 of the spec:
`matches == wins + losses == len(history)`. -/
def statsInv (m : Movie) : Prop :=
  m.matchesPlayed = m.wins + m.losses ∧ m.matchesPlayed = m.history.length

instance (m : Movie) : Decidable (statsInv m) := by
  unfold statsInv
  infer_instance

open Classical in
/-- One simulated match between adjacent participants: the first wins when
the outcome draw falls below its expected score (the source inlines the
same `1 / (1 + 10 ^ ((Rb - Ra) / 400))` formula); ratings and counts are
updated via `calculateNewRatings`, and no `MatchRecord` is appended. -/
noncomputable def simMatch (m1 m2 : Movie) (draw : ℚ) : Movie × Movie :=
  if ((draw : ℝ)) < getExpectedScore m1.elo m2.elo then
    let p := calculateNewRatings m1.elo m1.matchesPlayed m2.elo m2.matchesPlayed
    ({ m1 with
        elo := (p.1 : ℚ)
        matchesPlayed := m1.matchesPlayed + 1
        wins := m1.wins + 1 },
     { m2 with
        elo := (p.2 : ℚ)
        matchesPlayed := m2.matchesPlayed + 1
        losses := m2.losses + 1 })
  else
    let p := calculateNewRatings m2.elo m2.matchesPlayed m1.elo m1.matchesPlayed
    ({ m1 with
        elo := (p.2 : ℚ)
        matchesPlayed := m1.matchesPlayed + 1
        losses := m1.losses + 1 },
     { m2 with
        elo := (p.1 : ℚ)
        matchesPlayed := m2.matchesPlayed + 1
        wins := m2.wins + 1 })

/-- The Swiss-style pass over the sorted pool: adjacent not-yet-paired
participants are paired in order, one outcome draw per pair; a trailing
unpaired participant is left unchanged. -/
noncomputable def simPairs (rand : ℕ → ℚ) : List Movie → ℕ → List Movie
  | a :: b :: rest, c =>
    let p := simMatch a b (rand c)
    p.1 :: p.2 :: simPairs rand rest (c + 1)
  | xs, _ => xs

/-- `runSimulationRound` from `simulationService.ts`: perturb the sort keys
(draws `0 .. n-1`), stable-sort by perturbed key descending, then play the
adjacent pairs (outcome draws from position `n` on). -/
noncomputable def runSimulationRound (pool : List Movie) (rand : ℕ → ℚ) :
    List Movie :=
  simPairs rand
    (((pool.enum.map (fun im => (im.2.elo + (rand im.1 * 10 - 5), im.2))).insertionSort
        (fun a b => b.1 ≤ a.1)).map (fun km => km.2))
    pool.length

/-! ### Analytics (`MovieDetailModal.tsx`)

Pure reads over one participant: the rating-trajectory graph points, peak
and trough, and the volatility score. -/

/-- `[...movie.history].sort((a, b) => a.timestamp - b.timestamp)`:
the ledger stably sorted by timestamp ascending. -/
def sortedHistory (m : Movie) : List MatchRecord :=
  m.history.insertionSort (fun a b => a.timestamp ≤ b.timestamp)

/-- The elo coordinates of `graphPoints` in `MovieDetailModal.tsx`: the
global `INITIAL_ELO`, then each sorted ledger entry's resulting rating; a
legacy participant with matches but no ledger contributes just its current
rating as the endpoint. -/
def graphPoints (m : Movie) : List ℚ :=
  INITIAL_ELO ::
    (if 0 < m.history.length then (sortedHistory m).map (fun r => r.newElo)
     else if 0 < m.matchesPlayed then [m.elo]
     else [])

/-- `stats.peakElo`: `Math.max(...elos)`.  The graph list always starts with
`INITIAL_ELO`, so folding from `INITIAL_ELO` over the whole list is the
maximum of the list. -/
def peakElo (m : Movie) : ℚ := (graphPoints m).foldl max INITIAL_ELO

/-- `stats.lowestElo`: `Math.min(...elos)`. -/
def lowestElo (m : Movie) : ℚ := (graphPoints m).foldl min INITIAL_ELO

/-- `recentChanges` in `MovieDetailModal.tsx`:
`history.slice(-10).map(m => Math.abs(m.eloChange))`. -/
def recentChanges (m : Movie) : List ℚ :=
  (m.history.drop (m.history.length - 10)).map (fun r => |r.eloChange|)

/-- `avgChange` in `MovieDetailModal.tsx`:
`recentChanges.reduce((a, b) => a + b, 0) / (recentChanges.length || 1)`. -/
def avgChange (m : Movie) : ℚ :=
  (recentChanges m).sum /
    (if (recentChanges m).length = 0 then 1 else ((recentChanges m).length : ℚ))

/-- `stats.volatilityScore`:
`Math.min(Math.round((avgChange / 32) * 100), 100)`. -/
def volatilityScore (m : Movie) : ℤ :=
  min (round ((avgChange m / 32) * 100)) 100

/-- The mean absolute rating delta over the last 10 ledger entries, 0 when
there are none — the spec's wording of the numerator. -/
def specMeanAbsDelta (m : Movie) : ℚ :=
  if (recentChanges m).length = 0 then 0
  else (recentChanges m).sum / ((recentChanges m).length : ℚ)

/-- Claim C6's wording of the volatility score: the mean absolute rating
delta over the last 10 ledger entries, divided by the established-tier
K-factor, on a 0-100 scale capped at 100. -/
def claimVolatility (m : Movie) : ℤ :=
  min (round ((specMeanAbsDelta m / getKFactor 15) * 100)) 100

/-- The amended baseline: as `claimVolatility` but normalized by the
constant 32 the source actually uses. -/
def specVolatility (m : Movie) : ℤ :=
  min (round ((specMeanAbsDelta m / 32) * 100)) 100

/-- Claim C7's wording of the participant's own initial rating: the rating
before the chronologically first ledger entry, or the current rating when
the ledger is empty. -/
def claimOwnInitial (m : Movie) : ℚ :=
  match sortedHistory m with
  | [] => m.elo
  | r :: _ => r.newElo - r.eloChange

/-- Claim C7's reconstructed trajectory: the participant's own initial
rating followed by each sorted ledger entry's resulting rating. -/
def claimTrajectory (m : Movie) : List ℚ :=
  claimOwnInitial m :: (sortedHistory m).map (fun r => r.newElo)

/-- Claim C7's peak: the maximum over its trajectory. -/
def claimPeak (m : Movie) : ℚ :=
  (claimTrajectory m).foldl max (claimOwnInitial m)

/-! ### Helper lemmas for evaluating the rating update at concrete points -/

/-- `Math.pow(10, z)` at an integer exponent. -/
lemma ten_rpow_int (z : ℤ) : (10 : ℝ) ^ ((z : ℝ)) = (10 : ℝ) ^ z :=
  Real.rpow_intCast 10 z

lemma round_nonneg_of_nonneg {x : ℝ} (h : 0 ≤ x) : 0 ≤ round x := by
  rw [round_eq]
  exact Int.floor_nonneg.mpr (by linarith)

lemma round_nonpos_of_nonpos {x : ℝ} (h : x ≤ 0) : round x ≤ 0 := by
  rw [round_eq]
  have h2 : (⌊x + 1 / 2⌋ : ℤ) ≤ ⌊(1 : ℝ) / 2⌋ := Int.floor_le_floor (by linarith)
  simpa using h2.trans_eq (by norm_num)

lemma int_le_round_int_add {d : ℝ} (n : ℤ) (hd : 0 ≤ d) :
    n ≤ round ((n : ℝ) + d) := by
  rw [add_comm, round_add_int]
  have := round_nonneg_of_nonneg hd
  omega

lemma round_int_add_le {d : ℝ} (n : ℤ) (hd : d ≤ 0) :
    round ((n : ℝ) + d) ≤ n := by
  rw [add_comm, round_add_int]
  have := round_nonpos_of_nonpos hd
  omega

lemma expectedScore_pos (a b : ℚ) : 0 < getExpectedScore a b := by
  unfold getExpectedScore
  have hpow : (0 : ℝ) < (10 : ℝ) ^ ((((b : ℝ)) - ((a : ℝ))) / 400) :=
    Real.rpow_pos_of_pos (by norm_num) _
  positivity

lemma expectedScore_lt_one (a b : ℚ) : getExpectedScore a b < 1 := by
  unfold getExpectedScore
  have hpow : (0 : ℝ) < (10 : ℝ) ^ ((((b : ℝ)) - ((a : ℝ))) / 400) :=
    Real.rpow_pos_of_pos (by norm_num) _
  rw [div_lt_one (by linarith)]
  linarith

lemma getKFactor_pos (m : ℕ) : 0 < getKFactor m := by
  unfold getKFactor
  split
  · norm_num
  · split <;> norm_num

/-- The first component of the rating update never drops below an integer
winner rating: the pre-rounding delta is positive and rounding an integer
plus a nonnegative quantity stays at or above the integer. -/
lemma calc_fst_mono (w l : ℤ) (wm lm : ℕ) :
    w ≤ (calculateNewRatings (w : ℚ) wm (l : ℚ) lm).1 := by
  have hE2 := expectedScore_lt_one (w : ℚ) (l : ℚ)
  have h1 : (calculateNewRatings (w : ℚ) wm (l : ℚ) lm).1 =
      round (((w : ℤ) : ℝ) + ((getKFactor wm : ℚ) : ℝ) *
        (1 - getExpectedScore (w : ℚ) (l : ℚ))) := by
    unfold calculateNewRatings
    push_cast
    ring_nf
  rw [h1]
  refine int_le_round_int_add w ?_
  have hK : (0 : ℝ) < ((getKFactor wm : ℚ) : ℝ) := by exact_mod_cast getKFactor_pos wm
  have : (0 : ℝ) ≤ 1 - getExpectedScore (w : ℚ) (l : ℚ) := by linarith
  positivity

/-- The second component of the rating update never rises above an integer
loser rating. -/
lemma calc_snd_mono (w l : ℤ) (wm lm : ℕ) :
    (calculateNewRatings (w : ℚ) wm (l : ℚ) lm).2 ≤ l := by
  have hE3 := expectedScore_pos (l : ℚ) (w : ℚ)
  have hKl : (0 : ℝ) < ((getKFactor lm : ℚ) : ℝ) := by exact_mod_cast getKFactor_pos lm
  have h2 : (calculateNewRatings (w : ℚ) wm (l : ℚ) lm).2 =
      round (((l : ℤ) : ℝ) + ((getKFactor lm : ℚ) : ℝ) *
        (0 - getExpectedScore (l : ℚ) (w : ℚ))) := by
    unfold calculateNewRatings
    push_cast
    ring_nf
  rw [h2]
  refine round_int_add_le l ?_
  have h5 : (0 - getExpectedScore (l : ℚ) (w : ℚ)) ≤ 0 := by linarith
  exact mul_nonpos_of_nonneg_of_nonpos (le_of_lt hKl) h5

/-- Evaluation of the update at two fresh 1200-rated participants. -/
lemma calc_eval_1200 : calculateNewRatings 1200 0 1200 0 = (1240, 1160) := by
  unfold calculateNewRatings getExpectedScore getKFactor
  have h0 : ((((1200 : ℚ) : ℝ)) - (((1200 : ℚ) : ℝ))) / 400 = ((0 : ℤ) : ℝ) := by
    norm_num
  rw [h0, ten_rpow_int]
  simp only [if_pos (by norm_num : (0 : ℕ) < 5)]
  norm_num [round_eq]

/-- Evaluation at winner 1400 (20 matches) versus loser 1000 (20 matches). -/
lemma calc_eval_1400_1000 : calculateNewRatings 1400 20 1000 20 = (1402, 998) := by
  unfold calculateNewRatings getExpectedScore getKFactor
  have h0 : ((((1000 : ℚ) : ℝ)) - (((1400 : ℚ) : ℝ))) / 400 = ((-1 : ℤ) : ℝ) := by
    norm_num
  have h0' : ((((1400 : ℚ) : ℝ)) - (((1000 : ℚ) : ℝ))) / 400 = ((1 : ℤ) : ℝ) := by
    norm_num
  rw [h0, h0', ten_rpow_int, ten_rpow_int]
  simp only [if_neg (by norm_num : ¬(20 : ℕ) < 5), if_neg (by norm_num : ¬(20 : ℕ) < 15)]
  norm_num [round_eq, Prod.ext_iff]

/-- Evaluation at winner 1600 versus loser 800, both established (15 matches):
rounding absorbs the sub-half-point deltas and both ratings are unchanged. -/
lemma calc_eval_1600_800 : calculateNewRatings 1600 15 800 15 = (1600, 800) := by
  unfold calculateNewRatings getExpectedScore getKFactor
  have h0 : ((((800 : ℚ) : ℝ)) - (((1600 : ℚ) : ℝ))) / 400 = ((-2 : ℤ) : ℝ) := by
    norm_num
  have h0' : ((((1600 : ℚ) : ℝ)) - (((800 : ℚ) : ℝ))) / 400 = ((2 : ℤ) : ℝ) := by
    norm_num
  rw [h0, h0', ten_rpow_int, ten_rpow_int]
  simp only [if_neg (by norm_num : ¬(15 : ℕ) < 5), if_neg (by norm_num : ¬(15 : ℕ) < 15)]
  norm_num [round_eq]

end FilmElo

/-- C1 (counterexample): the claim that a judged win strictly increases the
winner's rating and strictly decreases the loser's is false on the code.  At
winner rating 1600 and loser rating 800, both with 15 matches (established
tier, K = 20), the pre-rounding deltas are 20/101 < 1/2 in magnitude, so
`Math.round` returns both ratings unchanged. -/
theorem C1_strict_change_counterexample :
    FilmElo.calculateNewRatings 1600 15 800 15 = (1600, 800) ∧
    ¬ ((1600 : ℤ) < (FilmElo.calculateNewRatings 1600 15 800 15).1 ∧
       (FilmElo.calculateNewRatings 1600 15 800 15).2 < (800 : ℤ)) := by
  refine ⟨FilmElo.calc_eval_1600_800, ?_⟩
  rw [FilmElo.calc_eval_1600_800]
  simp

/-- C1 (amended): for every pair of integer ratings (all ratings the engine
ever stores are integers) and every pair of experience counts, a judged win
never decreases the winner's rating and never increases the loser's rating;
strictness can fail because rounding absorbs deltas smaller than one half
point. -/
theorem C1_rating_update_monotone (w l : ℤ) (wm lm : ℕ) :
    w ≤ (FilmElo.calculateNewRatings (w : ℚ) wm (l : ℚ) lm).1 ∧
    (FilmElo.calculateNewRatings (w : ℚ) wm (l : ℚ) lm).2 ≤ l :=
  ⟨FilmElo.calc_fst_mono w l wm lm, FilmElo.calc_snd_mono w l wm lm⟩

/-- C9 (confirmed): the rating update reproduces the spec's two worked
examples exactly: fresh 1200-rated opponents go to 1240 and 1160, and a
1400-rated winner with 20 matches beating a 1000-rated loser with 20 matches
rounds to 1402 and 998. -/
theorem C9_worked_examples :
    FilmElo.calculateNewRatings 1200 0 1200 0 = (1240, 1160) ∧
    FilmElo.calculateNewRatings 1400 20 1000 20 = (1402, 998) :=
  ⟨FilmElo.calc_eval_1200, FilmElo.calc_eval_1400_1000⟩

/-- C4 (confirmed): judging a pair (which pushes a snapshot of the
pre-judgment pool) and then immediately undoing restores the pool to exactly
the pre-judgment snapshot.  No background fetch is in flight here, so the
restoration is field-for-field exact. -/
theorem C4_vote_then_undo_restores_pool (s : FilmElo.ArenaState)
    (w l ts : ℕ) :
    (FilmElo.handleUndo (FilmElo.handleVote s w l ts)).movies = s.movies := by
  unfold FilmElo.handleVote FilmElo.handleUndo
  simp

/-- C4 witness: a concrete two-movie pool with a non-empty prior undo stack
is restored exactly by vote-then-undo. -/
theorem C4_vote_then_undo_restores_pool_witness :
    (FilmElo.handleUndo (FilmElo.handleVote
        ⟨[FilmElo.freshMovie 0 1200, FilmElo.freshMovie 1 1000],
         [[FilmElo.freshMovie 0 1200]]⟩ 0 1 77)).movies =
      [FilmElo.freshMovie 0 1200, FilmElo.freshMovie 1 1000] :=
  C4_vote_then_undo_restores_pool
    ⟨[FilmElo.freshMovie 0 1200, FilmElo.freshMovie 1 1000],
     [[FilmElo.freshMovie 0 1200]]⟩ 0 1 77

/-- C10 (confirmed): a vote keeps only the 10 most recent stored snapshots
before appending the new one, so its stack length is `min(old, 10) + 1 ≤ 11`,
and an undo never grows the stack; hence `length ≤ 11` is preserved by every
vote and every undo. -/
theorem C10_undo_stack_bounded (s : FilmElo.ArenaState) (w l ts : ℕ) :
    (FilmElo.handleVote s w l ts).history.length = min s.history.length 10 + 1 ∧
    (FilmElo.handleVote s w l ts).history.length ≤ 11 ∧
    (FilmElo.handleUndo s).history.length ≤ s.history.length := by
  refine ⟨?_, ?_, ?_⟩
  · unfold FilmElo.handleVote
    simp
    omega
  · unfold FilmElo.handleVote
    simp
    omega
  · unfold FilmElo.handleUndo
    cases h : s.history.getLast? <;> simp [List.length_dropLast]

/-- C5 (confirmed): recording a judged match appends exactly one reciprocal
record to each side's ledger without touching the existing entries; the
winner's record stores the loser's pre-match rating and outcome WIN with
delta >= 0, the loser's record stores the winner's pre-match rating and
outcome LOSS with delta <= 0, and for both records
`resulting_rating - delta` is the participant's pre-match rating.  The delta
signs use the fact that the pre-match ratings are integers, which holds for
every rating the engine ever stores. -/
theorem C5_match_record_ledger (winner loser : FilmElo.Movie) (ts : ℕ)
    (hw : ∃ z : ℤ, winner.elo = (z : ℚ)) (hl : ∃ z : ℤ, loser.elo = (z : ℚ)) :
    ∃ rcW rcL : FilmElo.MatchRecord,
      (FilmElo.updateMovieStats winner loser ts).1.history
        = winner.history ++ [rcW] ∧
      (FilmElo.updateMovieStats winner loser ts).2.history
        = loser.history ++ [rcL] ∧
      rcW.result = .WIN ∧ rcW.opponentElo = some loser.elo ∧
      0 ≤ rcW.eloChange ∧ rcW.newElo - rcW.eloChange = winner.elo ∧
      rcL.result = .LOSS ∧ rcL.opponentElo = some winner.elo ∧
      rcL.eloChange ≤ 0 ∧ rcL.newElo - rcL.eloChange = loser.elo := by
  obtain ⟨zw, hzw⟩ := hw
  obtain ⟨zl, hzl⟩ := hl
  refine ⟨_, _, rfl, rfl, rfl, rfl, ?_, by ring, rfl, rfl, ?_, by ring⟩
  · have h2 : winner.elo ≤
        ((FilmElo.calculateNewRatings winner.elo winner.matchesPlayed
            loser.elo loser.matchesPlayed).1 : ℚ) := by
      rw [hzw, hzl]
      exact_mod_cast FilmElo.calc_fst_mono zw zl winner.matchesPlayed loser.matchesPlayed
    simpa [FilmElo.updateMovieStats] using sub_nonneg.mpr h2
  · have h2 : ((FilmElo.calculateNewRatings winner.elo winner.matchesPlayed
        loser.elo loser.matchesPlayed).2 : ℚ) ≤ loser.elo := by
      rw [hzw, hzl]
      exact_mod_cast FilmElo.calc_snd_mono zw zl winner.matchesPlayed loser.matchesPlayed
    simpa [FilmElo.updateMovieStats] using sub_nonpos.mpr h2

/-- C5 witness: the theorem applied to two fresh 1200-rated movies. -/
theorem C5_match_record_ledger_witness :
    ∃ rcW rcL : FilmElo.MatchRecord,
      (FilmElo.updateMovieStats (FilmElo.freshMovie 0 1200)
          (FilmElo.freshMovie 1 1200) 5).1.history
        = (FilmElo.freshMovie 0 1200).history ++ [rcW] ∧
      (FilmElo.updateMovieStats (FilmElo.freshMovie 0 1200)
          (FilmElo.freshMovie 1 1200) 5).2.history
        = (FilmElo.freshMovie 1 1200).history ++ [rcL] ∧
      rcW.result = .WIN ∧ rcW.opponentElo = some (FilmElo.freshMovie 1 1200).elo ∧
      0 ≤ rcW.eloChange ∧
      rcW.newElo - rcW.eloChange = (FilmElo.freshMovie 0 1200).elo ∧
      rcL.result = .LOSS ∧ rcL.opponentElo = some (FilmElo.freshMovie 0 1200).elo ∧
      rcL.eloChange ≤ 0 ∧
      rcL.newElo - rcL.eloChange = (FilmElo.freshMovie 1 1200).elo :=
  C5_match_record_ledger (FilmElo.freshMovie 0 1200) (FilmElo.freshMovie 1 1200) 5
    ⟨1200, by norm_num [FilmElo.freshMovie]⟩ ⟨1200, by norm_num [FilmElo.freshMovie]⟩

/-- C2 support: a unit-interval draw maps to an index below `n`. -/
lemma floorIdx_lt {r : ℚ} {n : ℕ} (hn : 0 < n) (_h0 : 0 ≤ r) (h1 : r < 1) :
    FilmElo.floorIdx r n < n := by
  unfold FilmElo.floorIdx
  have hlt : ⌊r * (n : ℚ)⌋ < (n : ℤ) := by
    apply Int.floor_lt.mpr
    push_cast
    nlinarith [show (0 : ℚ) < (n : ℚ) by exact_mod_cast hn]
  omega

/-- C2 support: once the two indices differ the retry loop stops at once. -/
lemma retryDistinct_of_ne (rand : ℕ → ℚ) (n idx1 idx2 c fuel : ℕ)
    (h : idx1 ≠ idx2) :
    FilmElo.retryDistinct rand n idx1 idx2 c fuel = (idx2, c) := by
  cases fuel with
  | zero => rfl
  | succ f => simp [FilmElo.retryDistinct, h]

/-- C2 support: if some draw inside the fuel window maps to an index other
than `idx1`, the retry loop returns an index other than `idx1`. -/
lemma retryDistinct_ne (rand : ℕ → ℚ) (n idx1 : ℕ) :
    ∀ (fuel idx2 c : ℕ),
      (∃ k, c ≤ k ∧ k < c + fuel ∧ FilmElo.floorIdx (rand k) n ≠ idx1) →
      (FilmElo.retryDistinct rand n idx1 idx2 c fuel).1 ≠ idx1 := by
  intro fuel
  induction fuel with
  | zero =>
    intro idx2 c h
    obtain ⟨k, hk1, hk2, _⟩ := h
    omega
  | succ f ih =>
    intro idx2 c h
    by_cases he : idx1 = idx2
    · rw [FilmElo.retryDistinct]
      rw [if_pos he]
      by_cases hc : FilmElo.floorIdx (rand c) n = idx1
      · apply ih
        obtain ⟨k, hk1, hk2, hk3⟩ := h
        refine ⟨k, ?_, by omega, hk3⟩
        rcases Nat.eq_or_lt_of_le hk1 with heq | hlt
        · exact absurd (heq ▸ hk3) (by rw [hc]; simp)
        · omega
      · rw [retryDistinct_of_ne rand n idx1 _ (c + 1) f (fun hx => hc hx.symm)]
        simpa using hc
    · rw [retryDistinct_of_ne rand n idx1 idx2 c (f + 1) he]
      simpa using fun hx => he hx.symm

/-- C2 support: the retry loop keeps the index inside the pool. -/
lemma retryDistinct_lt (rand : ℕ → ℚ) (n idx1 : ℕ) (hn : 0 < n)
    (hr : ∀ k, 0 ≤ rand k ∧ rand k < 1) :
    ∀ (fuel idx2 c : ℕ), idx2 < n →
      (FilmElo.retryDistinct rand n idx1 idx2 c fuel).1 < n := by
  intro fuel
  induction fuel with
  | zero => intro idx2 c h; exact h
  | succ f ih =>
    intro idx2 c h
    rw [FilmElo.retryDistinct]
    by_cases he : idx1 = idx2
    · rw [if_pos he]
      exact ih _ _ (floorIdx_lt hn (hr c).1 (hr c).2)
    · rw [if_neg he]
      exact h

/-- C2 support: every sampled candidate index lies inside the pool. -/
lemma smartCandidates_fst_lt (movies : List FilmElo.Movie) (rand : ℕ → ℚ)
    (idx1 : ℕ) (t : ℚ) (attempts : ℕ) (hn : 0 < movies.length)
    (hr : ∀ k, 0 ≤ rand k ∧ rand k < 1) :
    ∀ p ∈ FilmElo.smartCandidates movies rand idx1 t attempts,
      p.1 < movies.length := by
  intro p hp
  unfold FilmElo.smartCandidates at hp
  rw [List.mem_filterMap] at hp
  obtain ⟨i, _hi, hpe⟩ := hp
  dsimp only at hpe
  split at hpe
  · exact absurd hpe (by simp)
  · injection hpe with h
    rw [← h]
    exact floorIdx_lt hn (hr (3 + i)).1 (hr (3 + i)).2

/-- C2 support: the smart-pairing step keeps the index inside the pool. -/
lemma smartStep_fst_lt (movies : List FilmElo.Movie) (rand : ℕ → ℚ)
    (idx1 idx2 : ℕ) (hn : 0 < movies.length) (h2 : idx2 < movies.length)
    (hr : ∀ k, 0 ≤ rand k ∧ rand k < 1) :
    (FilmElo.smartStep movies rand idx1 idx2).1 < movies.length := by
  unfold FilmElo.smartStep
  split
  · dsimp only
    split
    · next hclen =>
      set attempts := min (movies.length - 1) 20 with hatt
      set candidates := FilmElo.smartCandidates movies rand idx1
        (movies.getD idx1 default).elo attempts with hcand
      set pool := (candidates.insertionSort (fun a b => a.2 ≤ b.2)).take 3
        with hpool
      have hplen : 0 < pool.length := by
        rw [hpool, List.length_take, List.length_insertionSort]
        omega
      have hj : FilmElo.floorIdx (rand (3 + attempts)) pool.length
          < pool.length :=
        floorIdx_lt hplen (hr (3 + attempts)).1 (hr (3 + attempts)).2
      have hmem : pool.getD (FilmElo.floorIdx (rand (3 + attempts))
          pool.length) default ∈ pool := by
        rw [List.getD_eq_getElem?_getD, List.getElem?_eq_getElem hj]
        exact List.getElem_mem hj
      have hmem2 : pool.getD (FilmElo.floorIdx (rand (3 + attempts))
          pool.length) default ∈ candidates := by
        have hsub := List.take_subset 3
          (candidates.insertionSort (fun a b => a.2 ≤ b.2))
        have := hsub (hpool ▸ hmem)
        exact (List.perm_insertionSort (fun a b => a.2 ≤ b.2) candidates).mem_iff.mp this
      exact smartCandidates_fst_lt movies rand idx1
        (movies.getD idx1 default).elo attempts hn hr _ hmem2
    · exact h2
  · exact h2

/-- C2 support: when every draw collides with `idx1`, the retry loop
exhausts its fuel and returns `idx1` itself. -/
lemma retryDistinct_all_collide (rand : ℕ → ℚ) (n idx1 : ℕ)
    (h : ∀ k, FilmElo.floorIdx (rand k) n = idx1) :
    ∀ fuel c, (FilmElo.retryDistinct rand n idx1 idx1 c fuel).1 = idx1 := by
  intro fuel
  induction fuel with
  | zero => intro c; rfl
  | succ f ih =>
    intro c
    rw [FilmElo.retryDistinct, if_pos rfl, h c]
    exact ih (c + 1)

/-- C2 support: with the smart-pairing coin not taken and every draw mapping
to the same index, `generatePair` returns that index twice. -/
lemma generatePair_all_collide (movies : List FilmElo.Movie) (rand : ℕ → ℚ)
    (h2 : 2 ≤ movies.length) (hcoin : ¬ ((6 : ℚ) / 10 < rand 2))
    (hz : ∀ k, FilmElo.floorIdx (rand k) movies.length
      = FilmElo.floorIdx (rand 0) movies.length) :
    FilmElo.generatePair movies rand =
      (FilmElo.floorIdx (rand 0) movies.length,
       FilmElo.floorIdx (rand 0) movies.length) := by
  unfold FilmElo.generatePair FilmElo.generatePairAux FilmElo.smartStep
  rw [if_neg (by omega : ¬ movies.length < 2)]
  dsimp only
  rw [if_neg hcoin]
  dsimp only
  rw [hz 1]
  have := retryDistinct_all_collide rand movies.length
    (FilmElo.floorIdx (rand 0) movies.length) hz 100 3
  rw [this]

/-- C2 (counterexample): with a pool of exactly 2 participants there is a
draw sequence (all draws 0, so every one of the 100 bounded retries
collides) for which `generatePair` returns the equal pair `(0, 0)`,
refuting both "never returns a pair whose two indices are equal" and
"with a pool of exactly 2 it always returns (0,1) or (1,0)".  The
sub-2-pool case returns the sentinel `(0, 0)` rather than a distinguished
`INSUFFICIENT_DATA` failure. -/
theorem C2_equal_pair_counterexample :
    ([FilmElo.freshMovie 0 1200, FilmElo.freshMovie 1 1000] : List FilmElo.Movie).length = 2 ∧
    FilmElo.generatePair [FilmElo.freshMovie 0 1200, FilmElo.freshMovie 1 1000]
      (fun _ => 0) = (0, 0) := by
  refine ⟨rfl, ?_⟩
  rw [generatePair_all_collide
    [FilmElo.freshMovie 0 1200, FilmElo.freshMovie 1 1000] (fun _ => 0)
    (by norm_num) (by norm_num) (fun k => rfl)]
  norm_num [FilmElo.floorIdx]

/-- C2 (amended): `generatePair` returns the sentinel pair `(0, 0)` (not a
distinguished error) whenever the pool has fewer than 2 participants, for
every draw stream.  With at least 2 participants and unit-interval draws,
both returned indices are in range, and they are distinct provided every
window of 100 consecutive draws contains one that maps to an index
different from the first draw's index — i.e. unless all 100 bounded
retries collide.  In particular a 2-pool then yields `(0, 1)` or
`(1, 0)`. -/
theorem C2_pair_generation_amended (movies : List FilmElo.Movie)
    (rand : ℕ → ℚ) :
    (movies.length < 2 → FilmElo.generatePair movies rand = (0, 0)) ∧
    (2 ≤ movies.length →
      (∀ k, 0 ≤ rand k ∧ rand k < 1) →
      (∀ m : ℕ, ∃ k, m ≤ k ∧ k < m + 100 ∧
        FilmElo.floorIdx (rand k) movies.length
          ≠ FilmElo.floorIdx (rand 0) movies.length) →
      (FilmElo.generatePair movies rand).1 < movies.length ∧
      (FilmElo.generatePair movies rand).2 < movies.length ∧
      (FilmElo.generatePair movies rand).1 ≠ (FilmElo.generatePair movies rand).2 ∧
      (movies.length = 2 →
        FilmElo.generatePair movies rand = (0, 1) ∨
        FilmElo.generatePair movies rand = (1, 0))) := by
  constructor
  · intro h
    unfold FilmElo.generatePair FilmElo.generatePairAux
    rw [if_pos h]
  · intro h2 hr hdiff
    have hn : 0 < movies.length := by omega
    have hred : FilmElo.generatePair movies rand =
        ((FilmElo.floorIdx (rand 0) movies.length),
         (FilmElo.retryDistinct rand movies.length
            (FilmElo.floorIdx (rand 0) movies.length)
            (FilmElo.smartStep movies rand (FilmElo.floorIdx (rand 0) movies.length)
              (FilmElo.floorIdx (rand 1) movies.length)).1
            (FilmElo.smartStep movies rand (FilmElo.floorIdx (rand 0) movies.length)
              (FilmElo.floorIdx (rand 1) movies.length)).2 100).1) := by
      unfold FilmElo.generatePair FilmElo.generatePairAux
      rw [if_neg (by omega : ¬ movies.length < 2)]
    have ha : (FilmElo.generatePair movies rand).1 < movies.length := by
      rw [hred]
      exact floorIdx_lt hn (hr 0).1 (hr 0).2
    have hb : (FilmElo.generatePair movies rand).2 < movies.length := by
      rw [hred]
      exact retryDistinct_lt rand movies.length _ hn hr 100 _ _
        (smartStep_fst_lt movies rand _ _ hn
          (floorIdx_lt hn (hr 1).1 (hr 1).2) hr)
    have hc : (FilmElo.generatePair movies rand).1
        ≠ (FilmElo.generatePair movies rand).2 := by
      rw [hred]
      have hne := retryDistinct_ne rand movies.length
        (FilmElo.floorIdx (rand 0) movies.length) 100
        (FilmElo.smartStep movies rand (FilmElo.floorIdx (rand 0) movies.length)
          (FilmElo.floorIdx (rand 1) movies.length)).1
        (FilmElo.smartStep movies rand (FilmElo.floorIdx (rand 0) movies.length)
          (FilmElo.floorIdx (rand 1) movies.length)).2
        (hdiff _)
      exact fun hx => hne hx.symm
    refine ⟨ha, hb, hc, ?_⟩
    intro hlen2
    rw [hlen2] at ha hb
    interval_cases hfst : (FilmElo.generatePair movies rand).1 <;>
      interval_cases hsnd : (FilmElo.generatePair movies rand).2 <;>
      simp_all

/-- C2 witness: the amended theorem applied twice — the sentinel clause on a
concrete 1-pool (for every-stream behaviour, here the all-zero stream), and
the in-range/distinct clauses on a concrete 2-pool with a draw stream whose
retries do not all collide. -/
theorem C2_pair_generation_amended_witness :
    FilmElo.generatePair [FilmElo.freshMovie 0 1200] (fun _ => 0) = (0, 0) ∧
    (FilmElo.generatePair [FilmElo.freshMovie 0 1200, FilmElo.freshMovie 1 1000]
        (fun k => if k = 0 then 0 else 1 / 2)).1
      < ([FilmElo.freshMovie 0 1200, FilmElo.freshMovie 1 1000] : List FilmElo.Movie).length ∧
    (FilmElo.generatePair [FilmElo.freshMovie 0 1200, FilmElo.freshMovie 1 1000]
        (fun k => if k = 0 then 0 else 1 / 2)).2
      < ([FilmElo.freshMovie 0 1200, FilmElo.freshMovie 1 1000] : List FilmElo.Movie).length ∧
    (FilmElo.generatePair [FilmElo.freshMovie 0 1200, FilmElo.freshMovie 1 1000]
        (fun k => if k = 0 then 0 else 1 / 2)).1
      ≠ (FilmElo.generatePair [FilmElo.freshMovie 0 1200, FilmElo.freshMovie 1 1000]
        (fun k => if k = 0 then 0 else 1 / 2)).2 ∧
    (FilmElo.generatePair [FilmElo.freshMovie 0 1200, FilmElo.freshMovie 1 1000]
        (fun k => if k = 0 then 0 else 1 / 2) = (0, 1) ∨
     FilmElo.generatePair [FilmElo.freshMovie 0 1200, FilmElo.freshMovie 1 1000]
        (fun k => if k = 0 then 0 else 1 / 2) = (1, 0)) := by
  have hone := (C2_pair_generation_amended [FilmElo.freshMovie 0 1200]
    (fun _ => 0)).1 (by simp)
  have htwo := (C2_pair_generation_amended
    [FilmElo.freshMovie 0 1200, FilmElo.freshMovie 1 1000]
    (fun k => if k = 0 then 0 else 1 / 2)).2
    (by simp)
    (by intro k; split <;> norm_num)
    (by
      intro m
      refine ⟨m + 1, by omega, by omega, ?_⟩
      norm_num [FilmElo.floorIdx])
  exact ⟨hone, htwo.1, htwo.2.1, htwo.2.2.1, htwo.2.2.2 rfl⟩

/-- C3 support: one simulated match keeps `matches = wins + losses` on both
sides (it increments the match count together with exactly one of the two
outcome counts), while appending nothing to either history. -/
lemma simMatch_counts (a b : FilmElo.Movie) (d : ℚ)
    (ha : a.matchesPlayed = a.wins + a.losses)
    (hb : b.matchesPlayed = b.wins + b.losses) :
    ((FilmElo.simMatch a b d).1.matchesPlayed
        = (FilmElo.simMatch a b d).1.wins + (FilmElo.simMatch a b d).1.losses) ∧
    ((FilmElo.simMatch a b d).2.matchesPlayed
        = (FilmElo.simMatch a b d).2.wins + (FilmElo.simMatch a b d).2.losses) := by
  unfold FilmElo.simMatch
  split <;> dsimp only <;> omega

/-- C3 support: the Swiss pass preserves `matches = wins + losses`
pointwise. -/
lemma simPairs_counts (rand : ℕ → ℚ) : ∀ (l : List FilmElo.Movie) (c : ℕ),
    (∀ m ∈ l, m.matchesPlayed = m.wins + m.losses) →
    ∀ m ∈ FilmElo.simPairs rand l c,
      m.matchesPlayed = m.wins + m.losses := by
  intro l c
  induction l, c using FilmElo.simPairs.induct rand with
  | case1 a b rest c ih =>
    intro h m hm
    rw [FilmElo.simPairs] at hm
    simp only [List.mem_cons] at hm
    have hcounts := simMatch_counts a b (rand c)
      (h a (by simp)) (h b (by simp))
    rcases hm with hm | hm | hm
    · exact hm ▸ hcounts.1
    · exact hm ▸ hcounts.2
    · exact ih (fun x hx => h x (by simp [hx])) m hm
  | case2 xs c hxs =>
    intro h m hm
    have hfix : FilmElo.simPairs rand xs c = xs := by
      cases xs with
      | nil => rfl
      | cons a t =>
        cases t with
        | nil => rfl
        | cons b r => exact absurd rfl (hxs a b r)
    rw [hfix] at hm
    exact h m hm

/-- C3 support: every member of a simulated round descends (as a value) from
a member of the input pool via the Swiss pass. -/
lemma runSimulationRound_counts (pool : List FilmElo.Movie) (rand : ℕ → ℚ)
    (h : ∀ m ∈ pool, m.matchesPlayed = m.wins + m.losses) :
    ∀ m ∈ FilmElo.runSimulationRound pool rand,
      m.matchesPlayed = m.wins + m.losses := by
  unfold FilmElo.runSimulationRound
  apply simPairs_counts
  intro m hm
  rw [List.mem_map] at hm
  obtain ⟨km, hkm, rfl⟩ := hm
  have h2 : km ∈ pool.enum.map
      (fun im => (im.2.elo + (rand im.1 * 10 - 5), im.2)) :=
    (List.perm_insertionSort (fun a b => b.1 ≤ a.1) _).subset hkm
  rw [List.mem_map] at h2
  obtain ⟨im, him, rfl⟩ := h2
  have h3 := List.mem_enum_iff_getElem?.mp him
  obtain ⟨hlt, heq⟩ := List.getElem?_eq_some.mp h3
  exact h _ (heq ▸ List.getElem_mem hlt)

/-- C3 support: a real judged match preserves the full invariant
`matches = wins + losses = len(history)` on both sides. -/
lemma updateMovieStats_inv (winner loser : FilmElo.Movie) (ts : ℕ)
    (hw : FilmElo.statsInv winner) (hl : FilmElo.statsInv loser) :
    FilmElo.statsInv (FilmElo.updateMovieStats winner loser ts).1 ∧
    FilmElo.statsInv (FilmElo.updateMovieStats winner loser ts).2 := by
  obtain ⟨hw1, hw2⟩ := hw
  obtain ⟨hl1, hl2⟩ := hl
  unfold FilmElo.updateMovieStats FilmElo.statsInv
  dsimp only
  refine ⟨⟨by omega, ?_⟩, ⟨by omega, ?_⟩⟩ <;> rw [List.length_append] <;>
    simp <;> omega

/-- Evaluation of the expected score at equal ratings. -/
lemma expectedScore_eq_half :
    FilmElo.getExpectedScore 1200 1200 = 1 / 2 := by
  unfold FilmElo.getExpectedScore
  rw [show ((((1200 : ℚ) : ℝ)) - (((1200 : ℚ) : ℝ))) / 400 = ((0 : ℤ) : ℝ) by
    norm_num, FilmElo.ten_rpow_int]
  norm_num

/-- Evaluation of one simulated round on two fresh 1200-rated movies with
the all-zero draw stream: the first wins, both match counts move, and no
history is written. -/
lemma sim_round_eval_1200 :
    FilmElo.runSimulationRound
      [FilmElo.freshMovie 0 1200, FilmElo.freshMovie 1 1200] (fun _ => 0) =
    [⟨0, "", "", none, 1240, 1, 1, 0, [], none⟩,
     ⟨1, "", "", none, 1160, 1, 0, 1, [], none⟩] := by
  unfold FilmElo.runSimulationRound
  have hk : (([FilmElo.freshMovie 0 1200, FilmElo.freshMovie 1 1200].enum).map
      (fun im => (im.2.elo + ((fun _ : ℕ => (0 : ℚ)) im.1 * 10 - 5), im.2)))
      = [((1195 : ℚ), FilmElo.freshMovie 0 1200),
         ((1195 : ℚ), FilmElo.freshMovie 1 1200)] := by
    norm_num [List.enum, List.enumFrom, FilmElo.freshMovie]
  rw [hk]
  have hs : ([((1195 : ℚ), FilmElo.freshMovie 0 1200),
      ((1195 : ℚ), FilmElo.freshMovie 1 1200)].insertionSort
        (fun a b => b.1 ≤ a.1))
      = [((1195 : ℚ), FilmElo.freshMovie 0 1200),
         ((1195 : ℚ), FilmElo.freshMovie 1 1200)] := by
    norm_num [List.insertionSort, List.orderedInsert]
  rw [hs]
  have hcond : (((0 : ℚ) : ℝ)) < FilmElo.getExpectedScore
      (FilmElo.freshMovie 0 1200).elo (FilmElo.freshMovie 1 1200).elo := by
    show (((0 : ℚ) : ℝ)) < FilmElo.getExpectedScore 1200 1200
    rw [expectedScore_eq_half]
    norm_num
  rw [show ([((1195 : ℚ), FilmElo.freshMovie 0 1200),
      ((1195 : ℚ), FilmElo.freshMovie 1 1200)].map (fun km => km.2))
      = [FilmElo.freshMovie 0 1200, FilmElo.freshMovie 1 1200] from rfl]
  rw [FilmElo.simPairs]
  rw [FilmElo.simMatch, if_pos hcond]
  have hc : FilmElo.calculateNewRatings (FilmElo.freshMovie 0 1200).elo
      (FilmElo.freshMovie 0 1200).matchesPlayed
      (FilmElo.freshMovie 1 1200).elo
      (FilmElo.freshMovie 1 1200).matchesPlayed = (1240, 1160) :=
    FilmElo.calc_eval_1200
  rw [hc]
  norm_num [FilmElo.freshMovie, FilmElo.simPairs]

/-- C3 (counterexample): one simulation round breaks the invariant
`matches == len(history)`.  On a pool of two fresh 1200-rated movies (which
satisfy the invariant) the round increments match counts but appends no
`MatchRecord`, leaving `matches = 1` with an empty history. -/
theorem C3_sim_round_breaks_invariant :
    (∀ m ∈ [FilmElo.freshMovie 0 1200, FilmElo.freshMovie 1 1200],
        FilmElo.statsInv m) ∧
    ¬ (∀ m ∈ FilmElo.runSimulationRound
          [FilmElo.freshMovie 0 1200, FilmElo.freshMovie 1 1200] (fun _ => 0),
        FilmElo.statsInv m) := by
  constructor
  · decide
  · intro hall
    have h1 := hall ⟨0, "", "", none, 1240, 1, 1, 0, [], none⟩
      (by rw [sim_round_eval_1200]; simp)
    have h2 := h1.2
    simp [FilmElo.statsInv] at h2

/-- C3 (amended): `matches == wins + losses == len(history)` is preserved on
both sides by a real judged match (`updateMovieStats`); one simulation round
preserves only `matches == wins + losses` pointwise, because it increments
the counts without appending any `MatchRecord`. -/
theorem C3_invariant_preservation_amended (winner loser : FilmElo.Movie)
    (ts : ℕ) (pool : List FilmElo.Movie) (rand : ℕ → ℚ)
    (hw : FilmElo.statsInv winner) (hl : FilmElo.statsInv loser)
    (hpool : ∀ m ∈ pool, m.matchesPlayed = m.wins + m.losses) :
    FilmElo.statsInv (FilmElo.updateMovieStats winner loser ts).1 ∧
    FilmElo.statsInv (FilmElo.updateMovieStats winner loser ts).2 ∧
    ∀ m ∈ FilmElo.runSimulationRound pool rand,
      m.matchesPlayed = m.wins + m.losses :=
  ⟨(updateMovieStats_inv winner loser ts hw hl).1,
   (updateMovieStats_inv winner loser ts hw hl).2,
   runSimulationRound_counts pool rand hpool⟩

/-- C3 witness: the amended theorem applied to fresh 1200-rated movies and
the two-movie pool with the all-zero draw stream. -/
theorem C3_invariant_preservation_amended_witness :
    FilmElo.statsInv (FilmElo.updateMovieStats (FilmElo.freshMovie 0 1200)
      (FilmElo.freshMovie 1 1200) 3).1 ∧
    FilmElo.statsInv (FilmElo.updateMovieStats (FilmElo.freshMovie 0 1200)
      (FilmElo.freshMovie 1 1200) 3).2 ∧
    ∀ m ∈ FilmElo.runSimulationRound
        [FilmElo.freshMovie 0 1200, FilmElo.freshMovie 1 1200] (fun _ => 0),
      m.matchesPlayed = m.wins + m.losses :=
  C3_invariant_preservation_amended (FilmElo.freshMovie 0 1200)
    (FilmElo.freshMovie 1 1200) 3
    [FilmElo.freshMovie 0 1200, FilmElo.freshMovie 1 1200] (fun _ => 0)
    (by decide) (by decide) (by decide)

/-- Evaluation of one simulated round on the same pool with all draws 9/10:
the outcome draw now exceeds the expected score, so the second movie wins. -/
lemma sim_round_eval_1200_r9 :
    FilmElo.runSimulationRound
      [FilmElo.freshMovie 0 1200, FilmElo.freshMovie 1 1200] (fun _ => 9 / 10) =
    [⟨0, "", "", none, 1160, 1, 0, 1, [], none⟩,
     ⟨1, "", "", none, 1240, 1, 1, 0, [], none⟩] := by
  unfold FilmElo.runSimulationRound
  have hk : (([FilmElo.freshMovie 0 1200, FilmElo.freshMovie 1 1200].enum).map
      (fun im => (im.2.elo + ((fun _ : ℕ => (9 / 10 : ℚ)) im.1 * 10 - 5), im.2)))
      = [((1204 : ℚ), FilmElo.freshMovie 0 1200),
         ((1204 : ℚ), FilmElo.freshMovie 1 1200)] := by
    norm_num [List.enum, List.enumFrom, FilmElo.freshMovie]
  rw [hk]
  have hs : ([((1204 : ℚ), FilmElo.freshMovie 0 1200),
      ((1204 : ℚ), FilmElo.freshMovie 1 1200)].insertionSort
        (fun a b => b.1 ≤ a.1))
      = [((1204 : ℚ), FilmElo.freshMovie 0 1200),
         ((1204 : ℚ), FilmElo.freshMovie 1 1200)] := by
    norm_num [List.insertionSort, List.orderedInsert]
  rw [hs]
  have hcond : ¬ ((((9 / 10 : ℚ) : ℝ)) < FilmElo.getExpectedScore
      (FilmElo.freshMovie 0 1200).elo (FilmElo.freshMovie 1 1200).elo) := by
    show ¬ ((((9 / 10 : ℚ) : ℝ)) < FilmElo.getExpectedScore 1200 1200)
    rw [expectedScore_eq_half]
    norm_num
  rw [show ([((1204 : ℚ), FilmElo.freshMovie 0 1200),
      ((1204 : ℚ), FilmElo.freshMovie 1 1200)].map (fun km => km.2))
      = [FilmElo.freshMovie 0 1200, FilmElo.freshMovie 1 1200] from rfl]
  rw [FilmElo.simPairs]
  rw [FilmElo.simMatch, if_neg hcond]
  have hc : FilmElo.calculateNewRatings (FilmElo.freshMovie 1 1200).elo
      (FilmElo.freshMovie 1 1200).matchesPlayed
      (FilmElo.freshMovie 0 1200).elo
      (FilmElo.freshMovie 0 1200).matchesPlayed = (1240, 1160) :=
    FilmElo.calc_eval_1200
  rw [hc]
  norm_num [FilmElo.freshMovie, FilmElo.simPairs]

/-- C8 (counterexample): `runSimulationRound` takes only the pool — there is
no seed or generator parameter — and its result depends on the ambient
`Math.random()` draws: two runs on the identical pool yield different
resulting pools (first movie ends at 1240 under one draw sequence and at
1160 under another), so the rounds are not reproducible by any seed. -/
theorem C8_unseeded_round_counterexample :
    (FilmElo.runSimulationRound
        [FilmElo.freshMovie 0 1200, FilmElo.freshMovie 1 1200]
        (fun _ => 0)).map FilmElo.Movie.elo = [1240, 1160] ∧
    (FilmElo.runSimulationRound
        [FilmElo.freshMovie 0 1200, FilmElo.freshMovie 1 1200]
        (fun _ => 9 / 10)).map FilmElo.Movie.elo = [1160, 1240] ∧
    FilmElo.runSimulationRound
        [FilmElo.freshMovie 0 1200, FilmElo.freshMovie 1 1200] (fun _ => 0)
      ≠ FilmElo.runSimulationRound
        [FilmElo.freshMovie 0 1200, FilmElo.freshMovie 1 1200]
        (fun _ => 9 / 10) := by
  refine ⟨?_, ?_, ?_⟩
  · rw [sim_round_eval_1200]; norm_num
  · rw [sim_round_eval_1200_r9]; norm_num
  · rw [sim_round_eval_1200, sim_round_eval_1200_r9]
    simp

/-- C8 support: the Swiss pass reads one draw per formed pair, at positions
`c .. c + l.length - 1`; streams agreeing there give equal results. -/
lemma simPairs_congr (r1 r2 : ℕ → ℚ) : ∀ (l : List FilmElo.Movie) (c : ℕ),
    (∀ k, c ≤ k → k < c + l.length → r1 k = r2 k) →
    FilmElo.simPairs r1 l c = FilmElo.simPairs r2 l c := by
  intro l c
  induction l, c using FilmElo.simPairs.induct r1 with
  | case1 a b rest c ih =>
    intro h
    rw [FilmElo.simPairs, FilmElo.simPairs]
    rw [h c (le_refl c) (by simp)]
    rw [ih (fun k hk1 hk2 => h k (by omega) (by simp at hk2 ⊢; omega))]
  | case2 xs c hxs =>
    intro _
    have hfix : ∀ r : ℕ → ℚ, FilmElo.simPairs r xs c = xs := by
      intro r
      cases xs with
      | nil => rfl
      | cons a t =>
        cases t with
        | nil => rfl
        | cons b rest => exact absurd rfl (hxs a b rest)
    rw [hfix r1, hfix r2]

/-- C8 (amended): with the ambient draws made explicit, one simulation round
is a deterministic function of the pool and the finitely many draws it
consumes: streams that agree on the first `2 * pool.length` positions (the
per-participant sort-key perturbations and at most one outcome draw per
pair) produce identical resulting pools.  The source itself offers no seed
parameter, so reproducibility is obtainable only by fixing the ambient
draws, not through the function's interface. -/
theorem C8_round_determinism_amended (pool : List FilmElo.Movie)
    (r1 r2 : ℕ → ℚ) (h : ∀ k, k < 2 * pool.length → r1 k = r2 k) :
    FilmElo.runSimulationRound pool r1 = FilmElo.runSimulationRound pool r2 := by
  unfold FilmElo.runSimulationRound
  have hkeyed : pool.enum.map
      (fun im => (im.2.elo + (r1 im.1 * 10 - 5), im.2)) = pool.enum.map
      (fun im => (im.2.elo + (r2 im.1 * 10 - 5), im.2)) := by
    apply List.map_congr_left
    intro im him
    have h3 := List.mem_enum_iff_getElem?.mp him
    obtain ⟨hlt, _⟩ := List.getElem?_eq_some.mp h3
    rw [h im.1 (by omega)]
  rw [hkeyed]
  apply simPairs_congr
  intro k hk1 hk2
  apply h
  have hlen : (((pool.enum.map
      (fun im => (im.2.elo + (r2 im.1 * 10 - 5), im.2))).insertionSort
        (fun a b => b.1 ≤ a.1)).map (fun km => km.2)).length = pool.length := by
    rw [List.length_map, List.length_insertionSort, List.length_map,
      List.enum_length]
  rw [hlen] at hk2
  omega

/-- C8 witness: the amended determinism theorem applied to the concrete
2-pool and two streams agreeing on the first four draws. -/
theorem C8_round_determinism_amended_witness :
    FilmElo.runSimulationRound
        [FilmElo.freshMovie 0 1200, FilmElo.freshMovie 1 1200] (fun _ => 0)
      = FilmElo.runSimulationRound
        [FilmElo.freshMovie 0 1200, FilmElo.freshMovie 1 1200]
        (fun k => if k < 4 then 0 else 1) :=
  C8_round_determinism_amended
    [FilmElo.freshMovie 0 1200, FilmElo.freshMovie 1 1200]
    (fun _ => 0) (fun k => if k < 4 then 0 else 1)
    (by
      intro k hk
      have h4 : k < 4 := by simpa using hk
      simp [h4])

/-- C6 (counterexample): the volatility score normalizes by 32, not by the
established-tier K-factor 20.  A participant whose single ledger entry has
|delta| = 16 scores 50 under the code but would score 80 under the claim's
formula. -/
theorem C6_volatility_baseline_counterexample :
    FilmElo.volatilityScore
      ⟨2, "", "", none, 1216, 1, 1, 0, [⟨1, 1, "", .WIN, 16, 1216, some 1200⟩],
       none⟩ = 50 ∧
    FilmElo.claimVolatility
      ⟨2, "", "", none, 1216, 1, 1, 0, [⟨1, 1, "", .WIN, 16, 1216, some 1200⟩],
       none⟩ = 80 ∧
    (50 : ℤ) ≠ 80 := by
  refine ⟨?_, ?_, by norm_num⟩
  · norm_num [FilmElo.volatilityScore, FilmElo.avgChange, FilmElo.recentChanges,
      round_eq, min_def]
  · norm_num [FilmElo.claimVolatility, FilmElo.specMeanAbsDelta,
      FilmElo.recentChanges, FilmElo.getKFactor, round_eq, min_def]

/-- C6 (amended): the volatility score equals the spec-style formula with
baseline 32 — the mean absolute rating delta over the last 10 ledger
entries (0 when there are none) divided by 32, on a 0-100 scale capped at
100 — and a participant with no ledger entries scores 0. -/
theorem C6_volatility_amended (m : FilmElo.Movie) :
    FilmElo.volatilityScore m = FilmElo.specVolatility m ∧
    (m.history = [] → FilmElo.volatilityScore m = 0) := by
  constructor
  · unfold FilmElo.volatilityScore FilmElo.specVolatility FilmElo.avgChange
      FilmElo.specMeanAbsDelta
    by_cases h : (FilmElo.recentChanges m).length = 0
    · have hnil : FilmElo.recentChanges m = [] := List.length_eq_zero.mp h
      rw [if_pos h, if_pos h, hnil]
      norm_num
    · rw [if_neg h, if_neg h]
  · intro h
    unfold FilmElo.volatilityScore FilmElo.avgChange FilmElo.recentChanges
    rw [h]
    norm_num [round_eq, min_def]

/-- C6 witness: the amended theorem applied to a fresh movie with an empty
ledger, whose volatility is 0 under both formulas. -/
theorem C6_volatility_amended_witness :
    FilmElo.volatilityScore (FilmElo.freshMovie 0 1200)
      = FilmElo.specVolatility (FilmElo.freshMovie 0 1200) ∧
    FilmElo.volatilityScore (FilmElo.freshMovie 0 1200) = 0 :=
  ⟨(C6_volatility_amended (FilmElo.freshMovie 0 1200)).1,
   (C6_volatility_amended (FilmElo.freshMovie 0 1200)).2 rfl⟩

/-- C7 support: a left fold of `max` is either its seed or a list member. -/
lemma foldl_max_mem : ∀ (l : List ℚ) (a : ℚ),
    l.foldl max a = a ∨ l.foldl max a ∈ l := by
  intro l
  induction l with
  | nil => intro a; left; rfl
  | cons b t ih =>
    intro a
    rcases ih (max a b) with h | h
    · rcases max_choice a b with hm | hm
      · left; rw [List.foldl_cons, h, hm]
      · right; rw [List.foldl_cons, h, hm]; exact List.mem_cons_self b t
    · right
      exact List.mem_cons_of_mem b h

/-- C7 support: the seed is bounded by the fold of `max`. -/
lemma le_foldl_max : ∀ (l : List ℚ) (a : ℚ), a ≤ l.foldl max a := by
  intro l
  induction l with
  | nil => intro a; exact le_refl a
  | cons b t ih =>
    intro a
    exact le_trans (le_max_left a b) (ih (max a b))

/-- C7 support: every member is bounded by the fold of `max`. -/
lemma mem_le_foldl_max : ∀ (l : List ℚ) (a : ℚ), ∀ x ∈ l, x ≤ l.foldl max a := by
  intro l
  induction l with
  | nil => intro a x hx; cases hx
  | cons b t ih =>
    intro a x hx
    rcases List.mem_cons.mp hx with h | h
    · rw [List.foldl_cons, h]
      exact le_trans (le_max_right a b) (le_foldl_max t (max a b))
    · exact ih (max a b) x h

/-- C7 support: a left fold of `min` is either its seed or a list member. -/
lemma foldl_min_mem : ∀ (l : List ℚ) (a : ℚ),
    l.foldl min a = a ∨ l.foldl min a ∈ l := by
  intro l
  induction l with
  | nil => intro a; left; rfl
  | cons b t ih =>
    intro a
    rcases ih (min a b) with h | h
    · rcases min_choice a b with hm | hm
      · left; rw [List.foldl_cons, h, hm]
      · right; rw [List.foldl_cons, h, hm]; exact List.mem_cons_self b t
    · right
      exact List.mem_cons_of_mem b h

/-- C7 support: the fold of `min` is bounded by its seed. -/
lemma foldl_min_le : ∀ (l : List ℚ) (a : ℚ), l.foldl min a ≤ a := by
  intro l
  induction l with
  | nil => intro a; exact le_refl a
  | cons b t ih =>
    intro a
    exact le_trans (ih (min a b)) (min_le_left a b)

/-- C7 support: the fold of `min` bounds every member. -/
lemma foldl_min_le_mem : ∀ (l : List ℚ) (a : ℚ), ∀ x ∈ l, l.foldl min a ≤ x := by
  intro l
  induction l with
  | nil => intro a x hx; cases hx
  | cons b t ih =>
    intro a x hx
    rcases List.mem_cons.mp hx with h | h
    · rw [List.foldl_cons, h]
      exact le_trans (foldl_min_le t (min a b)) (min_le_right a b)
    · exact ih (min a b) x h

/-- C7 (counterexample): the trajectory starts at the global `INITIAL_ELO`
(1200), not the participant's own initial rating.  A participant imported
with a star-based initial rating of 1000, no matches and no ledger has
`peak = trough = 1200` under the code, while the claim's own-initial-rating
trajectory gives 1000. -/
theorem C7_peak_start_counterexample :
    FilmElo.peakElo (FilmElo.freshMovie 3 1000) = 1200 ∧
    FilmElo.lowestElo (FilmElo.freshMovie 3 1000) = 1200 ∧
    FilmElo.claimPeak (FilmElo.freshMovie 3 1000) = 1000 ∧
    FilmElo.peakElo (FilmElo.freshMovie 3 1000)
      ≠ FilmElo.claimPeak (FilmElo.freshMovie 3 1000) := by
  refine ⟨?_, ?_, ?_, ?_⟩ <;>
    norm_num [FilmElo.peakElo, FilmElo.lowestElo, FilmElo.claimPeak,
      FilmElo.graphPoints, FilmElo.claimTrajectory, FilmElo.claimOwnInitial,
      FilmElo.sortedHistory, FilmElo.freshMovie, FilmElo.INITIAL_ELO,
      List.insertionSort]

/-- C7 (amended): `peak` is the maximum and `trough` the minimum over the
code's reconstructed trajectory, which starts at the global initial rating
1200 (not the participant's own initial rating) and is followed by the
sorted ledger's resulting ratings (current rating as endpoint for a
ledgerless participant with matches). -/
theorem C7_peak_trough_amended (m : FilmElo.Movie) :
    FilmElo.peakElo m ∈ FilmElo.graphPoints m ∧
    (∀ x ∈ FilmElo.graphPoints m, x ≤ FilmElo.peakElo m) ∧
    FilmElo.lowestElo m ∈ FilmElo.graphPoints m ∧
    (∀ x ∈ FilmElo.graphPoints m, FilmElo.lowestElo m ≤ x) ∧
    (FilmElo.graphPoints m).head? = some FilmElo.INITIAL_ELO := by
  refine ⟨?_, ?_, ?_, ?_, ?_⟩
  · rcases foldl_max_mem (FilmElo.graphPoints m) FilmElo.INITIAL_ELO with h | h
    · rw [FilmElo.peakElo, h]
      unfold FilmElo.graphPoints
      exact List.mem_cons_self _ _
    · exact h
  · exact mem_le_foldl_max (FilmElo.graphPoints m) FilmElo.INITIAL_ELO
  · rcases foldl_min_mem (FilmElo.graphPoints m) FilmElo.INITIAL_ELO with h | h
    · rw [FilmElo.lowestElo, h]
      unfold FilmElo.graphPoints
      exact List.mem_cons_self _ _
    · exact h
  · exact foldl_min_le_mem (FilmElo.graphPoints m) FilmElo.INITIAL_ELO
  · unfold FilmElo.graphPoints
    rfl

/-- C7 witness: the amended theorem instantiated at a concrete star-rated
participant, with the bound applied to the trajectory's head. -/
theorem C7_peak_trough_amended_witness :
    FilmElo.peakElo (FilmElo.freshMovie 3 1000)
      ∈ FilmElo.graphPoints (FilmElo.freshMovie 3 1000) ∧
    (1200 : ℚ) ≤ FilmElo.peakElo (FilmElo.freshMovie 3 1000) ∧
    FilmElo.lowestElo (FilmElo.freshMovie 3 1000)
      ∈ FilmElo.graphPoints (FilmElo.freshMovie 3 1000) ∧
    FilmElo.lowestElo (FilmElo.freshMovie 3 1000) ≤ (1200 : ℚ) :=
  ⟨(C7_peak_trough_amended (FilmElo.freshMovie 3 1000)).1,
   (C7_peak_trough_amended (FilmElo.freshMovie 3 1000)).2.1 1200
     (by norm_num [FilmElo.graphPoints, FilmElo.freshMovie, FilmElo.INITIAL_ELO]),
   (C7_peak_trough_amended (FilmElo.freshMovie 3 1000)).2.2.1,
   (C7_peak_trough_amended (FilmElo.freshMovie 3 1000)).2.2.2.1 1200
     (by norm_num [FilmElo.graphPoints, FilmElo.freshMovie, FilmElo.INITIAL_ELO])⟩
